import Mathlib

/-!
Shallow embedding of the urlstat visit-statistics engine (Go + SQL) and
verification of its specification claims.

The storage layer is modelled as a `List Visit` (the `visits` table / the
per-hostname Mongo collections).  SQL aggregates are translated literally:
`COUNT(*)` becomes `List.length` of a filter, `COUNT(DISTINCT ip)` becomes
the length of `List.dedup` of the projected ips, `GROUP BY` becomes a map
over the deduplicated keys, `ORDER BY` becomes an insertion sort on the
corresponding key order.
-/

namespace Urlstat

/-- One row of the `visits` table (handlers.go `visit` struct /
part_002 `CREATE TABLE visits`).  Timestamps are modelled as integers
measured in days (only their ordering matters to the engine). -/
structure Visit where
  hostname  : String
  visitorID : String
  path      : String
  ip        : String
  ua        : String
  referer   : String
  time      : Int
deriving DecidableEq, Repr

/-- `pageStatsSQL` row predicate: `WHERE hostname = $1 AND path = $2`. -/
def matchesPage (h p : String) (v : Visit) : Bool :=
  v.hostname == h && v.path == p

/-- `pageStatsSQL` page views: `SELECT COUNT(*) FROM visits WHERE hostname = $1 AND path = $2`. -/
def pagePV (vs : List Visit) (h p : String) : Nat :=
  (vs.filter (matchesPage h p)).length

/-- `pageStatsSQL` unique visitors: `COUNT(DISTINCT ip)` over the same rows. -/
def pageUV (vs : List Visit) (h p : String) : Nat :=
  (((vs.filter (matchesPage h p)).map Visit.ip).dedup).length

/-- `siteStatsSQL` page views: `SELECT COUNT(*) FROM visits WHERE hostname = $1`. -/
def sitePV (vs : List Visit) (h : String) : Nat :=
  (vs.filter (fun v => v.hostname == h)).length

/-- `siteStatsSQL` unique visitors: `COUNT(DISTINCT ip)` over the partition. -/
def siteUV (vs : List Visit) (h : String) : Nat :=
  (((vs.filter (fun v => v.hostname == h)).map Visit.ip).dedup).length

/-- `countVisit` (handlers.go): dispatches on the `mode` argument to the
page- or site-scope statistics; any other mode yields the zero counters
(in the Go switch no case matches, `err` stays nil and `pv, uv` stay 0). -/
def countVisit (vs : List Visit) (hostname path mode : String) : Nat × Nat :=
  match mode with
  | "site" => (sitePV vs hostname, siteUV vs hostname)
  | "page" => (pagePV vs hostname path, pageUV vs hostname path)
  | _ => (0, 0)

/-- The distinct paths of a visit list (the `GROUP BY path` keys). -/
def distinctPaths (vs : List Visit) : List String :=
  (vs.map Visit.path).dedup

/-! ## Cleanup (dashboard.go `cleanupSQL` / `cleanup`) -/

/-- The `(hostname, path)` grouping key of a visit. -/
def visitKey (v : Visit) : String × String :=
  (v.hostname, v.path)

/-- Size of the `(hostname, path)` group of key `k`:
`GROUP BY hostname, path` with `COUNT(*)`. -/
def groupCount (vs : List Visit) (k : String × String) : Nat :=
  (vs.filter (fun v => visitKey v == k)).length

/-- The `low_visit_paths` CTE of `cleanupSQL`:
`SELECT hostname, path FROM visits GROUP BY hostname, path HAVING COUNT(*) < 10`. -/
def lowVisitPaths (vs : List Visit) : List (String × String) :=
  ((vs.map visitKey).dedup).filter (fun k => groupCount vs k < 10)

/-- `cleanup` (dashboard.go): executes `cleanupSQL`, which deletes every
visit whose `(hostname, path)` key appears in `low_visit_paths`, and
returns the surviving table together with `RowsAffected()`, the number of
deleted rows. -/
def cleanup (vs : List Visit) : List Visit × Nat :=
  let keep := vs.filter (fun v => decide (visitKey v ∉ lowVisitPaths vs))
  (keep, vs.length - keep.length)

/-! ## Dashboard window and aggregation (dashboard.go `dashboardAPI`, `dashboardSQL`) -/

/-- The `days` clamp of `dashboardAPI`:
`if days <= 0 || days > 365 { days = 30 }`. -/
def effectiveDays (days : Int) : Int :=
  if days ≤ 0 ∨ 365 < days then 30 else days

/-- `since := time.Now().UTC().AddDate(0, 0, -days)` after the clamp,
with time measured in days. -/
def sinceOf (now days : Int) : Int :=
  now - effectiveDays days

/-- The `created_at >= $2` window condition of `dashboardSQL` for a
request asking for `days`, evaluated at server time `now`. -/
def inWindow (now days : Int) (v : Visit) : Bool :=
  decide (sinceOf now days ≤ v.time)

/-- The rows selected by `dashboardSQL`:
`WHERE hostname = $1 AND created_at >= $2`. -/
def windowFilter (vs : List Visit) (h : String) (now days : Int) : List Visit :=
  vs.filter (fun v => v.hostname == h && inWindow now days v)

/-- One `(path, pv, uv)` row of the dashboard path breakdown
(`PathItem` / the StatRow of the spec). -/
structure StatRow where
  path : String
  pv   : Nat
  uv   : Nat
deriving DecidableEq, Repr

/-- The unsorted result of the `dashboardSQL` clause
`SELECT path, COUNT(*) as pv, COUNT(DISTINCT ip) as uv ... GROUP BY path`
on an already window-filtered row list. -/
def pathRows (l : List Visit) : List StatRow :=
  (l.map Visit.path).dedup.map (fun p =>
    { path := p
      pv := (l.filter (fun v => v.path == p)).length
      uv := ((l.filter (fun v => v.path == p)).map Visit.ip).dedup.length })

/-- The `ORDER BY pv DESC, uv DESC` key order: row `a` may precede row
`b` when `a` has more page views, or equally many page views and at
least as many unique visitors. -/
def rowGE (a b : StatRow) : Bool :=
  b.pv < a.pv || (a.pv == b.pv && b.uv ≤ a.uv)

/-- Insert a row into a list sorted by `rowGE`, keeping it sorted. -/
def insertRow (a : StatRow) : List StatRow → List StatRow
  | [] => [a]
  | b :: rest => if rowGE a b then a :: b :: rest else b :: insertRow a rest

/-- Sorting by `ORDER BY pv DESC, uv DESC` as an insertion sort. -/
def sortRows : List StatRow → List StatRow
  | [] => []
  | a :: rest => insertRow a (sortRows rest)

/-- The full path-breakdown query of `dashboardAPI`: filter by hostname
and window, group by path, sort by `pv DESC, uv DESC`. -/
def dashboardRows (vs : List Visit) (h : String) (now days : Int) : List StatRow :=
  sortRows (pathRows (windowFilter vs h now days))

/-- The summary accumulation loop of `dashboardAPI`:
`totalPV += item.PV; totalUV += item.UV` over the path rows. -/
def dashSummary (rows : List StatRow) : Nat × Nat :=
  rows.foldl (fun acc r => (acc.1 + r.pv, acc.2 + r.uv)) (0, 0)

/-! ## Visitor identity and ingestion persistence (handlers.go `saveVisit`, `recording`) -/

/-- `saveVisit` (handlers.go): if the `VisitorID` of the visit is empty a
fresh identifier is generated (`uuid.New().String()`, modelled by the
`freshID` argument supplied by the environment); the visit is inserted
via `insertSQL` with the given hostname, and the (possibly fresh)
visitor id is returned. -/
def saveVisit (freshID : String) (hostname : String) (v : Visit) (vs : List Visit) :
    String × List Visit :=
  let vid := if v.visitorID == "" then freshID else v.visitorID
  (vid, vs ++ [{ v with hostname := hostname, visitorID := vid }])

/-- The `Set-Cookie` condition of `recording`:
`if cookieVid == "" && vid != "" { w.Header().Set("Set-Cookie", ...) }`.
This is the observable `isNew` signal of the identity contract. -/
def setsCookie (cookieVid vid : String) : Bool :=
  cookieVid == "" && vid != ""

/-! ## Origin allow-list (part_002 `allowed.isAllowed`, handlers.go `recording`) -/

/-- `b` occurs at the head of `a` (character lists). -/
def strStartsWith : List Char → List Char → Bool
  | _, [] => true
  | [], _ :: _ => false
  | a :: s, b :: t => a == b && strStartsWith s t

/-- `strings.Contains a b`: `b` occurs as a contiguous substring of `a`. -/
def strContainsSub : List Char → List Char → Bool
  | [], sub => sub.isEmpty
  | a :: s, sub => strStartsWith (a :: s) sub || strContainsSub s sub

/-- `allowed.isAllowed` (domain branch, part_002): scans the configured
`Domain` list and accepts as soon as `strings.Contains(source, domain)`
holds for some entry. -/
def isAllowed (domains : List String) (src : String) : Bool :=
  domains.any (fun d => strContainsSub src.data d.data)

/-- Outcome of the `recording` handler up to persistence. -/
inductive RecordOutcome where
  | originRejected (vs : List Visit)
  | saved (vid : String) (vs : List Visit)
deriving DecidableEq, Repr

/-- The origin gate and persistence step of `recording` (handlers.go):
`ori := scheme + "://" + host`; if `!source.isAllowed(ori, true)` the
request fails with "origin not allowed" before anything is stored;
otherwise the visit is persisted via `saveVisit`. -/
def recordVisit (domains : List String) (freshID : String) (scheme host : String)
    (v : Visit) (vs : List Visit) : RecordOutcome :=
  let ori := scheme ++ "://" ++ host
  if !isAllowed domains ori then
    .originRejected vs
  else
    let r := saveVisit freshID host v vs
    .saved r.1 r.2

/-! ## Index readiness (indexes.go / part_001 `ensureIndexesOnce`) -/

/-- An event in the life of the readiness manager for some partition
type `P`: `callOnce p` is an invocation of `ensureIndexesOnce`;
`finish p ok` is the background ensure procedure for `p` terminating
with success (`ok = true`) or failure. -/
inductive EnsureOp (P : Type) where
  | callOnce (p : P)
  | finish (p : P) (ok : Bool)

/-- Readiness-manager state: `marked` is the key set of the
`indexedCollections` sync.Map; `launches` is the log of background
ensure procedures started so far. -/
structure EnsState (P : Type) where
  marked : List P
  launches : List P
deriving Repr

/-- One atomic step of the readiness manager.  `callOnce p` performs
`LoadOrStore(name, true)`: if already present it returns without
launching, else it stores the mark and launches the background ensure
procedure.  `finish p ok` models the end of that procedure: on failure
it performs `indexedCollections.Delete(name)` so a later call may retry;
on success the mark stays for the lifetime of the process. -/
def ensureStep {P : Type} [DecidableEq P] (s : EnsState P) : EnsureOp P → EnsState P
  | .callOnce p =>
      if p ∈ s.marked then s
      else { marked := p :: s.marked, launches := s.launches ++ [p] }
  | .finish p ok =>
      if ok then s else { s with marked := s.marked.erase p }

/-- Run a sequence of readiness events (any interleaving of calls and
completions, serialised by the atomicity of `LoadOrStore`/`Delete`). -/
def ensureRun {P : Type} [DecidableEq P] (s : EnsState P) : List (EnsureOp P) → EnsState P
  | [] => s
  | op :: ops => ensureRun (ensureStep s op) ops

/-! ## Concrete fixtures used by witnesses and counterexamples -/

/-- A visit with the irrelevant fields fixed, used in concrete scenarios. -/
def mkVisit (host p ip : String) (t : Int) : Visit :=
  { hostname := host, visitorID := "v", path := p, ip := ip, ua := "", referer := "", time := t }

/-- The cleanup scenario of the spec: ten events on `/x` from ten distinct
client addresses and one event on `/y`, all in partition `site1`. -/
def cleanupExample : List Visit :=
  (List.range 10).map (fun i => mkVisit "site1" "/x" (toString i) 0)
    ++ [mkVisit "site1" "/y" "1.1.1.1" 0]

/-! ## General counting lemmas -/

theorem dedup_length_le {α : Type} [DecidableEq α] (l : List α) :
    l.dedup.length ≤ l.length :=
  (List.dedup_sublist l).length_le

theorem dedup_length_eq_iff_nodup {α : Type} [DecidableEq α] (l : List α) :
    l.dedup.length = l.length ↔ l.Nodup := by
  constructor
  · intro h
    have heq := (List.dedup_sublist l).eq_of_length h
    rw [List.dedup_eq_self] at heq
    exact heq
  · intro h
    rw [List.dedup_eq_self.mpr h]

theorem count_map_eq_length_filter {α β : Type} [DecidableEq β] (f : α → β) (b : β) :
    ∀ l : List α, (l.map f).count b = (l.filter (fun a => f a == b)).length := by
  intro l
  induction l with
  | nil => rfl
  | cons a t ih =>
    by_cases hab : f a = b
    · simp [List.count_cons, List.filter_cons, hab, ih]
    · simp [List.count_cons, List.filter_cons, hab, ih]

theorem length_filter_add_length_filter_not {α : Type} (p : α → Bool) :
    ∀ l : List α, (l.filter p).length + (l.filter (fun a => !p a)).length = l.length := by
  intro l
  induction l with
  | nil => rfl
  | cons a t ih =>
    cases hpa : p a with
    | true =>
      simp only [List.filter_cons, hpa, Bool.not_true, if_true, if_false, List.length_cons,
        Bool.false_eq_true, ite_false, ite_true]
      omega
    | false =>
      simp only [List.filter_cons, hpa, Bool.not_false, if_true, if_false, List.length_cons,
        Bool.false_eq_true, ite_false, ite_true]
      omega

theorem sum_count_over_nodup_keys {α : Type} [DecidableEq α] :
    ∀ (keys : List α) (m : List α), keys.Nodup → (∀ a ∈ m, a ∈ keys) →
      (keys.map (fun a => m.count a)).sum = m.length := by
  intro keys
  induction keys with
  | nil =>
    intro m _ hcov
    cases m with
    | nil => rfl
    | cons a t => exact absurd (hcov a (by simp)) (by simp)
  | cons k keys ih =>
    intro m hnd hcov
    have hk : k ∉ keys := (List.nodup_cons.mp hnd).1
    have hnd2 : keys.Nodup := (List.nodup_cons.mp hnd).2
    have hcount : m.count k = (m.filter (fun x => x == k)).length := by
      rw [List.count_eq_countP, List.countP_eq_length_filter]
    have hrest : ∀ a ∈ keys, (m.filter (fun x => !(x == k))).count a = m.count a := by
      intro a ha
      have hak : a ≠ k := fun h => hk (h ▸ ha)
      exact List.count_filter (by simp [hak])
    have hcov2 : ∀ a ∈ m.filter (fun x => !(x == k)), a ∈ keys := by
      intro a ha
      rw [List.mem_filter] at ha
      have h1 := hcov a ha.1
      have h2 : a ≠ k := by simpa using ha.2
      simpa [h2] using h1
    have hsplit := length_filter_add_length_filter_not (fun x : α => x == k) m
    have ihm := ih (m.filter (fun x => !(x == k))) hnd2 hcov2
    have hmapeq : (keys.map (fun a => m.count a)).sum
        = (keys.map (fun a => (m.filter (fun x => !(x == k))).count a)).sum := by
      rw [List.map_congr_left]
      intro a ha
      exact (hrest a ha).symm
    simp only [List.map_cons, List.sum_cons, hmapeq, ihm, hcount]
    omega

theorem dedup_count_sum {α : Type} [DecidableEq α] (m : List α) :
    (m.dedup.map (fun a => m.count a)).sum = m.length :=
  sum_count_over_nodup_keys m.dedup m (List.nodup_dedup m)
    (fun _ ha => (List.mem_dedup).mpr ha)

/-! ## Cleanup lemmas -/

theorem decide_ge_eq_not_decide_lt (n m : Nat) : decide (m ≤ n) = !decide (n < m) := by
  rw [← decide_not, decide_eq_decide]
  exact Nat.not_lt.symm

theorem mem_lowVisitPaths_iff (vs : List Visit) (v : Visit) (hv : v ∈ vs) :
    visitKey v ∈ lowVisitPaths vs ↔ groupCount vs (visitKey v) < 10 := by
  unfold lowVisitPaths
  rw [List.mem_filter]
  simp only [decide_eq_true_eq]
  constructor
  · exact fun h => h.2
  · intro h
    refine ⟨?_, h⟩
    rw [List.mem_dedup]
    exact List.mem_map_of_mem visitKey hv

theorem cleanup_keep_eq (vs : List Visit) :
    (cleanup vs).1 = vs.filter (fun v => decide (10 ≤ groupCount vs (visitKey v))) := by
  show vs.filter _ = vs.filter _
  apply List.filter_congr
  intro v hv
  by_cases h : groupCount vs (visitKey v) < 10
  · have hmem : visitKey v ∈ lowVisitPaths vs := (mem_lowVisitPaths_iff vs v hv).mpr h
    have hle : ¬ 10 ≤ groupCount vs (visitKey v) := by omega
    simp [hmem, hle]
  · have hmem : visitKey v ∉ lowVisitPaths vs :=
      fun hc => h ((mem_lowVisitPaths_iff vs v hv).mp hc)
    have hle : 10 ≤ groupCount vs (visitKey v) := by omega
    simp [hmem, hle]

theorem cleanup_deleted_eq (vs : List Visit) :
    (cleanup vs).2 = (vs.filter (fun v => decide (groupCount vs (visitKey v) < 10))).length := by
  have hkeep := cleanup_keep_eq vs
  have hsplit := length_filter_add_length_filter_not
    (fun v => decide (groupCount vs (visitKey v) < 10)) vs
  have hnot : vs.filter (fun v => !decide (groupCount vs (visitKey v) < 10))
      = vs.filter (fun v => decide (10 ≤ groupCount vs (visitKey v))) := by
    apply List.filter_congr
    intro v _
    exact (decide_ge_eq_not_decide_lt _ _).symm
  show vs.length - (cleanup vs).1.length = _
  rw [hkeep, ← hnot]
  omega

theorem groupCount_cleanup (vs : List Visit) (k : String × String) :
    groupCount (cleanup vs).1 k
      = if groupCount vs k < 10 then 0 else groupCount vs k := by
  have hbase : groupCount (cleanup vs).1 k
      = (vs.filter (fun v =>
          (visitKey v == k) && decide (10 ≤ groupCount vs (visitKey v)))).length := by
    rw [cleanup_keep_eq, groupCount, List.filter_filter]
  by_cases hk : groupCount vs k < 10
  · rw [if_pos hk, hbase]
    have hnil : vs.filter (fun v =>
        (visitKey v == k) && decide (10 ≤ groupCount vs (visitKey v))) = [] := by
      rw [List.filter_eq_nil_iff]
      intro v _
      simp only [Bool.and_eq_true, beq_iff_eq, decide_eq_true_eq, not_and]
      intro hkey
      rw [hkey]
      omega
    rw [hnil]
    rfl
  · rw [if_neg hk, hbase]
    have heq : vs.filter (fun v =>
        (visitKey v == k) && decide (10 ≤ groupCount vs (visitKey v)))
        = vs.filter (fun v => visitKey v == k) := by
      apply List.filter_congr
      intro v _
      by_cases hkey : visitKey v = k
      · have hge : 10 ≤ groupCount vs k := by omega
        simp [hkey, hge]
      · simp [hkey]
    rw [heq]
    rfl

/-! ## Substring lemmas for the origin allow-list -/

theorem strStartsWith_self : ∀ l : List Char, strStartsWith l l = true := by
  intro l
  induction l with
  | nil => rfl
  | cons a t ih => simp [strStartsWith, ih]

theorem strContainsSub_self : ∀ l : List Char, strContainsSub l l = true := by
  intro l
  cases l with
  | nil => rfl
  | cons a t => simp [strContainsSub, strStartsWith_self]

/-- Counterexample to C4 as stated: `dashboardAPI` clamps `days ≤ 0` to
the 30-day default rather than treating 0 as unbounded history, so with
`windowDays = 0` a 31-day-old event (server time 100, event time 69) is
excluded, refuting "includes every stored event regardless of its age". -/
theorem window_zero_counterexample :
    ¬ (∀ (now : Int) (v : Visit), inWindow now 0 v = true) :=
  fun h => absurd (h 100 (mkVisit "h" "/p" "ip" 69)) (by decide)

/-- Claim C4 as amended: requested windows outside 1..365 (including 0)
fall back to the 30-day default; for `1 ≤ days ≤ 365` the window contains
exactly the events with `occurredAt ≥ now − days`; a 31-day-old event is
excluded both at `days = 30` and at the clamped `days = 0`. -/
theorem window_amended (days : Int) :
    (1 ≤ days → days ≤ 365 →
      ∀ (now : Int) (v : Visit), (inWindow now days v = true ↔ now - days ≤ v.time))
    ∧ ((days ≤ 0 ∨ 365 < days) → effectiveDays days = 30)
    ∧ (∀ (now : Int) (v : Visit), v.time = now - 31 → inWindow now 30 v = false)
    ∧ (∀ (now : Int) (v : Visit), v.time = now - 31 → inWindow now 0 v = false) := by
  refine ⟨?_, ?_, ?_, ?_⟩
  · intro h1 h2 now v
    unfold inWindow sinceOf effectiveDays
    rw [if_neg (by omega)]
    simp
  · intro h
    unfold effectiveDays
    rw [if_pos h]
  · intro now v ht
    unfold inWindow sinceOf effectiveDays
    rw [if_neg (by omega)]
    simp only [ht, decide_eq_false_iff_not]
    omega
  · intro now v ht
    unfold inWindow sinceOf effectiveDays
    rw [if_pos (by omega)]
    simp only [ht, decide_eq_false_iff_not]
    omega

/-- Witness for the amended C4: at server time 100, the event of time 69
(31 days old) is excluded by a 30-day window and included by a 31-day
window. -/
theorem window_amended_witness :
    inWindow 100 30 (mkVisit "h" "/p" "ip" 69) = false
    ∧ inWindow 100 31 (mkVisit "h" "/p" "ip" 69) = true := by
  refine ⟨(window_amended 30).2.2.1 100 (mkVisit "h" "/p" "ip" 69) (by decide), ?_⟩
  exact ((window_amended 31).1 (by decide) (by decide) 100
    (mkVisit "h" "/p" "ip" 69)).mpr (by decide)

/-- Counterexample to C5 as stated: the allow-list check of
`allowed.isAllowed` is `strings.Contains`, not membership: the origin
`https://changkun.de.evil.com` is not on the allow-list
`["https://changkun.de"]`, yet the check passes and the request is not
rejected, refuting "rejected for every scheme+host not on the list". -/
theorem origin_substring_counterexample :
    ("https://changkun.de.evil.com" ∉ ["https://changkun.de"])
    ∧ isAllowed ["https://changkun.de"] "https://changkun.de.evil.com" = true
    ∧ recordVisit ["https://changkun.de"] "f" "https" "changkun.de.evil.com"
        (mkVisit "" "/p" "ip" 0) []
        ≠ RecordOutcome.originRejected [] :=
  ⟨by decide, by decide, by decide⟩

/-- Claim C5 as amended: `recording` rejects with "origin not allowed"
and persists nothing exactly when no configured allow-list entry occurs
as a substring of the `scheme://host` of the declared URL; exact membership
of the scheme+host on the list therefore implies the check passes, but
the check may also pass for origins not on the list. -/
theorem origin_check_amended (domains : List String) (freshID scheme host : String)
    (v : Visit) (vs : List Visit) :
    (isAllowed domains (scheme ++ "://" ++ host) = false →
      recordVisit domains freshID scheme host v vs = .originRejected vs)
    ∧ (isAllowed domains (scheme ++ "://" ++ host) = true →
      recordVisit domains freshID scheme host v vs
        = .saved (saveVisit freshID host v vs).1 (saveVisit freshID host v vs).2)
    ∧ (isAllowed domains (scheme ++ "://" ++ host) = true ↔
        ∃ d ∈ domains, strContainsSub (scheme ++ "://" ++ host).data d.data = true)
    ∧ ((scheme ++ "://" ++ host) ∈ domains →
        isAllowed domains (scheme ++ "://" ++ host) = true) := by
  refine ⟨?_, ?_, ?_, ?_⟩
  · intro hfalse
    simp [recordVisit, hfalse]
  · intro htrue
    simp [recordVisit, htrue]
  · unfold isAllowed
    exact List.any_eq_true
  · intro hmem
    unfold isAllowed
    rw [List.any_eq_true]
    exact ⟨scheme ++ "://" ++ host, hmem, strContainsSub_self _⟩

/-- Witness for the amended C5: a non-matching origin is rejected with
nothing stored, and an origin exactly equal to a configured entry passes. -/
theorem origin_check_amended_witness :
    recordVisit ["https://ok.example"] "f" "https" "bad.example"
      (mkVisit "" "/p" "ip" 0) [] = RecordOutcome.originRejected []
    ∧ isAllowed ["https://ok.example"] ("https" ++ "://" ++ "ok.example") = true := by
  refine ⟨(origin_check_amended ["https://ok.example"] "f" "https" "bad.example"
    (mkVisit "" "/p" "ip" 0) []).1 (by decide), ?_⟩
  exact (origin_check_amended ["https://ok.example"] "f" "https" "ok.example"
    (mkVisit "" "/p" "ip" 0) []).2.2.2 (by decide)

/-- Claim C1: cleanup deletes exactly the visits belonging to
`(hostname, path)` groups of total size strictly below 10: every event of
a group with fewer than 10 events is removed, every event of a group with
at least 10 events survives with its multiplicity intact, and the
returned count equals the total number of events removed. -/
theorem cleanup_deletes_exactly_low_groups (vs : List Visit) :
    (∀ v ∈ vs, groupCount vs (visitKey v) < 10 → v ∉ (cleanup vs).1)
    ∧ (∀ v ∈ vs, 10 ≤ groupCount vs (visitKey v) →
        List.count v (cleanup vs).1 = List.count v vs)
    ∧ (cleanup vs).2
        = (vs.filter (fun v => decide (groupCount vs (visitKey v) < 10))).length := by
  refine ⟨?_, ?_, cleanup_deleted_eq vs⟩
  · intro v _ hlow hmem
    rw [cleanup_keep_eq, List.mem_filter] at hmem
    have := hmem.2
    simp only [decide_eq_true_eq] at this
    omega
  · intro v _ hge
    rw [cleanup_keep_eq]
    exact List.count_filter (by simpa using hge)

/-- Witness for C1 on the spec scenario: the lone `/y` event sits in a
group of size 1 and is deleted, while an `/x` event sits in a group of
size 10 and survives. -/
theorem cleanup_deletes_exactly_low_groups_witness :
    (mkVisit "site1" "/y" "1.1.1.1" 0) ∉ (cleanup cleanupExample).1
    ∧ List.count (mkVisit "site1" "/x" "0" 0) (cleanup cleanupExample).1
        = List.count (mkVisit "site1" "/x" "0" 0) cleanupExample :=
  ⟨(cleanup_deletes_exactly_low_groups cleanupExample).1 _ (by decide) (by decide),
   (cleanup_deletes_exactly_low_groups cleanupExample).2.1 _ (by decide) (by decide)⟩

/-- Claim C8: cleanup is idempotent: after one cleanup pass no
`(hostname, path)` group below the threshold remains, so a second pass
with no intervening ingestion deletes 0 events. -/
theorem cleanup_idempotent (vs : List Visit) : (cleanup (cleanup vs).1).2 = 0 := by
  have hall : ∀ v ∈ (cleanup vs).1,
      decide (visitKey v ∉ lowVisitPaths (cleanup vs).1) = true := by
    intro v hv
    simp only [decide_eq_true_eq]
    intro hmem
    have hlow := (mem_lowVisitPaths_iff (cleanup vs).1 v hv).mp hmem
    have hv2 := hv
    rw [cleanup_keep_eq, List.mem_filter] at hv2
    have hge : 10 ≤ groupCount vs (visitKey v) := by simpa using hv2.2
    have hgc := groupCount_cleanup vs (visitKey v)
    rw [if_neg (by omega)] at hgc
    omega
  show (cleanup vs).1.length - ((cleanup vs).1.filter _).length = 0
  rw [List.filter_eq_self.mpr hall]
  exact Nat.sub_self _

/-- Claim C7: for every stored visit set, partition and path, and in both
the page and the site scope, the unique-visitor count is at most the
page-view count, and equality holds exactly when the client addresses of
the in-scope visits are pairwise distinct. -/
theorem uv_le_pv_and_equality_iff_distinct (vs : List Visit) (h p : String) :
    (pageUV vs h p ≤ pagePV vs h p
      ∧ (pageUV vs h p = pagePV vs h p ↔ ((vs.filter (matchesPage h p)).map Visit.ip).Nodup))
    ∧ (siteUV vs h ≤ sitePV vs h
      ∧ (siteUV vs h = sitePV vs h ↔ ((vs.filter (fun v => v.hostname == h)).map Visit.ip).Nodup)) := by
  have hplen : ((vs.filter (matchesPage h p)).map Visit.ip).length = pagePV vs h p :=
    List.length_map _ _
  have hslen : ((vs.filter (fun v => v.hostname == h)).map Visit.ip).length = sitePV vs h :=
    List.length_map _ _
  refine ⟨⟨hplen ▸ dedup_length_le _, ?_⟩, hslen ▸ dedup_length_le _, ?_⟩
  · rw [pageUV, ← hplen]
    exact dedup_length_eq_iff_nodup _
  · rw [siteUV, ← hslen]
    exact dedup_length_eq_iff_nodup _

/-! ## Sorting lemmas for the dashboard ranking -/

theorem rowGE_iff (a b : StatRow) :
    rowGE a b = true ↔ (b.pv < a.pv ∨ (a.pv = b.pv ∧ b.uv ≤ a.uv)) := by
  unfold rowGE
  simp [Bool.or_eq_true, Bool.and_eq_true, decide_eq_true_eq, beq_iff_eq]

theorem rowGE_total (a b : StatRow) : rowGE a b = true ∨ rowGE b a = true := by
  rw [rowGE_iff, rowGE_iff]
  omega

theorem rowGE_trans (a b c : StatRow) :
    rowGE a b = true → rowGE b c = true → rowGE a c = true := by
  rw [rowGE_iff, rowGE_iff, rowGE_iff]
  omega

theorem mem_insertRow (a : StatRow) (l : List StatRow) (c : StatRow) :
    c ∈ insertRow a l → c = a ∨ c ∈ l := by
  induction l with
  | nil =>
    intro h
    simp only [insertRow, List.mem_singleton] at h
    exact Or.inl h
  | cons b t ih =>
    intro h
    unfold insertRow at h
    by_cases hab : rowGE a b = true
    · rw [if_pos hab] at h
      exact List.mem_cons.mp h
    · rw [if_neg hab] at h
      rcases List.mem_cons.mp h with h1 | h2
      · exact Or.inr (h1 ▸ List.mem_cons_self b t)
      · rcases ih h2 with h3 | h4
        · exact Or.inl h3
        · exact Or.inr (List.mem_cons_of_mem b h4)

theorem pairwise_insertRow (a : StatRow) (l : List StatRow)
    (h : l.Pairwise (fun x y => rowGE x y = true)) :
    (insertRow a l).Pairwise (fun x y => rowGE x y = true) := by
  induction l with
  | nil => simp [insertRow]
  | cons b t ih =>
    rw [List.pairwise_cons] at h
    unfold insertRow
    by_cases hab : rowGE a b = true
    · rw [if_pos hab, List.pairwise_cons]
      refine ⟨?_, List.pairwise_cons.mpr h⟩
      intro c hc
      rcases List.mem_cons.mp hc with h1 | h2
      · exact h1 ▸ hab
      · exact rowGE_trans a b c hab (h.1 c h2)
    · rw [if_neg hab, List.pairwise_cons]
      refine ⟨?_, ih h.2⟩
      intro c hc
      rcases mem_insertRow a t c hc with h1 | h2
      · rw [h1]
        rcases rowGE_total a b with h3 | h4
        · exact absurd h3 hab
        · exact h4
      · exact h.1 c h2

theorem sortRows_pairwise (l : List StatRow) :
    (sortRows l).Pairwise (fun x y => rowGE x y = true) := by
  induction l with
  | nil => simp [sortRows]
  | cons a t ih => exact pairwise_insertRow a (sortRows t) ih

/-- Claim C3: the dashboard path breakdown is sorted descending by page
views with ties broken descending by unique visitors (the
`ORDER BY pv DESC, uv DESC` of `dashboardSQL`), and on the example
rows A(5,3), B(5,4), C(9,1) the resulting order is C, B, A. -/
theorem dashboard_rows_sorted :
    (∀ (vs : List Visit) (h : String) (now days : Int),
      (dashboardRows vs h now days).Pairwise
        (fun a b => b.pv < a.pv ∨ (a.pv = b.pv ∧ b.uv ≤ a.uv)))
    ∧ sortRows [⟨"A", 5, 3⟩, ⟨"B", 5, 4⟩, ⟨"C", 9, 1⟩]
        = [⟨"C", 9, 1⟩, ⟨"B", 5, 4⟩, ⟨"A", 5, 3⟩] := by
  constructor
  · intro vs h now days
    exact (sortRows_pairwise (pathRows (windowFilter vs h now days))).imp
      (fun hxy => (rowGE_iff _ _).mp hxy)
  · decide

/-- Claim C9: the readiness manager launches at most one ensure attempt
per partition: a second `ensureIndexesOnce` call while the first is in
flight launches nothing; after a successful completion later calls still
launch nothing; only a failed completion clears the mark so that a later
call launches a new attempt. -/
theorem ensure_once_at_most_one {P : Type} [DecidableEq P] (s : EnsState P) (p : P)
    (hp : p ∉ s.marked) :
    (ensureRun s [.callOnce p, .callOnce p]).launches = s.launches ++ [p]
    ∧ (ensureRun s [.callOnce p, .callOnce p, .finish p true, .callOnce p]).launches
        = s.launches ++ [p]
    ∧ (ensureRun s [.callOnce p, .callOnce p, .finish p false, .callOnce p]).launches
        = s.launches ++ [p, p] := by
  simp [ensureRun, ensureStep, hp, List.mem_cons, List.erase_cons_head]

/-- Witness for C9 at a concrete partition and the empty initial state. -/
theorem ensure_once_at_most_one_witness :
    (ensureRun (⟨[], []⟩ : EnsState Nat) [.callOnce 0, .callOnce 0]).launches = [0]
    ∧ (ensureRun (⟨[], []⟩ : EnsState Nat)
        [.callOnce 0, .callOnce 0, .finish 0 false, .callOnce 0]).launches = [0, 0] := by
  have h := ensure_once_at_most_one (⟨[], []⟩ : EnsState Nat) 0 (by decide)
  exact ⟨by simpa using h.1, by simpa using h.2.2⟩

/-- Claim C2: identity resolution in `saveVisit`/`recording`: a non-empty
caller token is used verbatim as the persisted `visitorID` and echoed
back with no `Set-Cookie`; an empty token is replaced by the freshly
generated identifier, which is persisted and returned with `Set-Cookie`. -/
theorem visitor_identity (freshID hostname : String) (v : Visit) (vs : List Visit)
    (hf : freshID ≠ "") :
    (v.visitorID ≠ "" →
      (saveVisit freshID hostname v vs).1 = v.visitorID
      ∧ (saveVisit freshID hostname v vs).2 = vs ++ [{ v with hostname := hostname }]
      ∧ setsCookie v.visitorID (saveVisit freshID hostname v vs).1 = false)
    ∧ (v.visitorID = "" →
      (saveVisit freshID hostname v vs).1 = freshID
      ∧ (saveVisit freshID hostname v vs).2
          = vs ++ [{ v with hostname := hostname, visitorID := freshID }]
      ∧ setsCookie v.visitorID (saveVisit freshID hostname v vs).1 = true) := by
  constructor
  · intro hne
    have hbeq : (v.visitorID == "") = false := beq_eq_false_iff_ne.mpr hne
    refine ⟨?_, ?_, ?_⟩ <;> simp [saveVisit, setsCookie, hbeq]
  · intro heq
    have hbeq : (v.visitorID == "") = true := beq_iff_eq.mpr heq
    have hfb : (freshID == "") = false := beq_eq_false_iff_ne.mpr hf
    refine ⟨?_, ?_, ?_⟩ <;> simp [saveVisit, setsCookie, hbeq, heq, bne, hfb]

/-- Witness for C2: an existing token `"v"` is returned unchanged; an
empty token is replaced by the supplied fresh identifier. -/
theorem visitor_identity_witness :
    (saveVisit "uuid-1" "h" (mkVisit "h" "/p" "ip" 0) []).1 = "v"
    ∧ (saveVisit "uuid-1" "h" { mkVisit "h" "/p" "ip" 0 with visitorID := "" } []).1
        = "uuid-1" := by
  have h1 := visitor_identity "uuid-1" "h" (mkVisit "h" "/p" "ip" 0) [] (by decide)
  have h2 := visitor_identity "uuid-1" "h"
    { mkVisit "h" "/p" "ip" 0 with visitorID := "" } [] (by decide)
  exact ⟨(h1.1 (by decide)).1, (h2.2 (by decide)).1⟩

/-- Claim C6: the site-scope page-view count of a partition equals the
sum, over the distinct paths occurring in that partition, of the
page-scope page-view counts. -/
theorem site_pv_eq_sum_page_pv (vs : List Visit) (h : String) (path0 : String) :
    (countVisit vs h path0 "site").1 =
      ((distinctPaths (vs.filter (fun v => v.hostname == h))).map
        (fun p => (countVisit vs h p "page").1)).sum := by
  show sitePV vs h = ((distinctPaths (vs.filter (fun v => v.hostname == h))).map
    (fun p => pagePV vs h p)).sum
  have hpage : ∀ p : String, pagePV vs h p
      = ((vs.filter (fun v => v.hostname == h)).map Visit.path).count p := by
    intro p
    rw [count_map_eq_length_filter]
    unfold pagePV
    rw [List.filter_filter]
    congr 1
    apply List.filter_congr
    intro v _
    simp [matchesPage, Bool.and_comm]
  rw [List.map_congr_left (fun p _ => hpage p)]
  unfold distinctPaths sitePV
  rw [dedup_count_sum]
  simp

/-! ## Dashboard summary lemmas -/

theorem dashSummary_loop (rows : List StatRow) :
    ∀ n m : Nat, rows.foldl (fun acc r => (acc.1 + r.pv, acc.2 + r.uv)) (n, m)
      = (n + (rows.map StatRow.pv).sum, m + (rows.map StatRow.uv).sum) := by
  induction rows with
  | nil => intro n m; simp
  | cons r t ih =>
    intro n m
    simp only [List.foldl_cons, List.map_cons, List.sum_cons]
    rw [ih]
    simp [Nat.add_assoc]

theorem dashSummary_eq (rows : List StatRow) :
    dashSummary rows = ((rows.map StatRow.pv).sum, (rows.map StatRow.uv).sum) := by
  unfold dashSummary
  rw [dashSummary_loop]
  simp

theorem length_insertRow (a : StatRow) :
    ∀ l : List StatRow, (insertRow a l).length = l.length + 1 := by
  intro l
  induction l with
  | nil => rfl
  | cons b t ih =>
    unfold insertRow
    by_cases hab : rowGE a b = true
    · rw [if_pos hab]
      rfl
    · rw [if_neg hab]
      simp only [List.length_cons, ih]

theorem length_sortRows : ∀ l : List StatRow, (sortRows l).length = l.length := by
  intro l
  induction l with
  | nil => rfl
  | cons a t ih =>
    unfold sortRows
    rw [length_insertRow, ih]
    rfl

theorem mem_of_mem_sortRows : ∀ (l : List StatRow) (c : StatRow), c ∈ sortRows l → c ∈ l := by
  intro l
  induction l with
  | nil =>
    intro c hc
    simp only [sortRows] at hc
    exact absurd hc (List.not_mem_nil c)
  | cons a t ih =>
    intro c hc
    unfold sortRows at hc
    rcases mem_insertRow a (sortRows t) c hc with h1 | h2
    · exact h1 ▸ List.mem_cons_self a t
    · exact List.mem_cons_of_mem a (ih c h2)

theorem dedup_eq_singleton_of_all_eq {α : Type} [DecidableEq α] (c : α) :
    ∀ l : List α, l ≠ [] → (∀ x ∈ l, x = c) → l.dedup = [c] := by
  intro l
  induction l with
  | nil => intro h; exact absurd rfl h
  | cons a t ih =>
    intro _ hall
    have ha : a = c := hall a (List.mem_cons_self a t)
    cases t with
    | nil => simp [ha]
    | cons b t2 =>
      have ht : (b :: t2).dedup = [c] :=
        ih (by simp) (fun x hx => hall x (List.mem_cons_of_mem a hx))
      have hb : b = c := hall b (List.mem_cons_of_mem a (List.mem_cons_self b t2))
      have hmem : a ∈ b :: t2 := by
        rw [ha, ← hb]
        exact List.mem_cons_self b t2
      rw [List.dedup_cons_of_mem hmem, ht]

theorem sum_map_of_all_one {α : Type} (f : α → Nat) :
    ∀ l : List α, (∀ x ∈ l, f x = 1) → (l.map f).sum = l.length := by
  intro l
  induction l with
  | nil => intro _; rfl
  | cons a t ih =>
    intro hall
    simp only [List.map_cons, List.sum_cons, List.length_cons,
      hall a (List.mem_cons_self a t)]
    rw [ih (fun x hx => hall x (List.mem_cons_of_mem a hx))]
    omega

theorem pathRows_uv_one (l : List Visit) (c : String) (hip : ∀ v ∈ l, v.ip = c) :
    ∀ r ∈ pathRows l, r.uv = 1 := by
  intro r hr
  unfold pathRows at hr
  rcases List.mem_map.mp hr with ⟨p, hp, hrow⟩
  rw [List.mem_dedup] at hp
  rcases List.mem_map.mp hp with ⟨v, hv, hvp⟩
  have hvf : v ∈ l.filter (fun w => w.path == p) :=
    List.mem_filter.mpr ⟨hv, by simp [hvp]⟩
  have hne : (l.filter (fun w => w.path == p)).map Visit.ip ≠ [] := by
    intro hnil
    rw [List.map_eq_nil_iff] at hnil
    rw [hnil] at hvf
    exact absurd hvf (List.not_mem_nil v)
  have hallc : ∀ x ∈ (l.filter (fun w => w.path == p)).map Visit.ip, x = c := by
    intro x hx
    rcases List.mem_map.mp hx with ⟨w, hw, hwip⟩
    rw [← hwip]
    exact hip w (List.mem_filter.mp hw).1
  have hded := dedup_eq_singleton_of_all_eq c _ hne hallc
  rw [← hrow]
  simp only [hded, List.length_singleton]

/-- Claim C10: in the dashboard API the summary `total_uv` is the sum of
the per-path `uv` values over the selected window; with a single client
address the total equals the number of distinct paths visited, so it can
strictly exceed the number of distinct client addresses in the window:
on two paths visited by one address, `total_uv = 2` while only 1 distinct
address exists. -/
theorem total_uv_is_sum_of_path_uv :
    (∀ rows : List StatRow, (dashSummary rows).2 = (rows.map StatRow.uv).sum)
    ∧ (∀ (vs : List Visit) (h : String) (now days : Int) (c : String),
        (∀ v ∈ windowFilter vs h now days, v.ip = c) →
        (dashSummary (dashboardRows vs h now days)).2
          = (distinctPaths (windowFilter vs h now days)).length)
    ∧ ((dashSummary (dashboardRows
          [mkVisit "h" "/a" "1.1.1.1" 100, mkVisit "h" "/b" "1.1.1.1" 100] "h" 100 30)).2 = 2
      ∧ ((windowFilter
          [mkVisit "h" "/a" "1.1.1.1" 100, mkVisit "h" "/b" "1.1.1.1" 100] "h" 100 30).map
            Visit.ip).dedup.length = 1) := by
  refine ⟨?_, ?_, by decide, by decide⟩
  · intro rows
    rw [dashSummary_eq]
  · intro vs h now days c hip
    rw [dashSummary_eq]
    show ((dashboardRows vs h now days).map StatRow.uv).sum = _
    unfold dashboardRows
    rw [sum_map_of_all_one StatRow.uv _ (fun r hr =>
      pathRows_uv_one (windowFilter vs h now days) c hip r
        (mem_of_mem_sortRows _ r hr))]
    rw [length_sortRows]
    unfold pathRows distinctPaths
    rw [List.length_map]

/-- Witness for the single-client conjunct of C10 at the concrete two-path,
one-address visit set. -/
theorem total_uv_is_sum_of_path_uv_witness :
    (dashSummary (dashboardRows
        [mkVisit "h" "/a" "1.1.1.1" 100, mkVisit "h" "/b" "1.1.1.1" 100] "h" 100 30)).2
      = (distinctPaths (windowFilter
        [mkVisit "h" "/a" "1.1.1.1" 100, mkVisit "h" "/b" "1.1.1.1" 100] "h" 100 30)).length :=
  total_uv_is_sum_of_path_uv.2.1
    [mkVisit "h" "/a" "1.1.1.1" 100, mkVisit "h" "/b" "1.1.1.1" 100] "h" 100 30 "1.1.1.1"
    (by decide)

end Urlstat
